import Mathlib

/-!
Shallow embedding of the MotoRain radar composite-and-route-analysis engine
(src/backend/radar_rain_checker.py) together with theorems settling the
specification claims C1 to C10.

Conventions used throughout:
* RGB pixels are triples of naturals (PIL channel values, 0 to 255).
* Python floats are modelled as rationals; Python `int()` truncation toward
  zero is `truncQ`.
* NumPy uint8 arithmetic wraps modulo 256; the vectorized storm mask embeds
  that wrap explicitly (`% 256` on the channel sums).
* Fallible Python code (ZeroDivisionError in the projection) returns `Except`.
* Frame timestamps are opaque display labels; they are modelled as naturals.
-/

/-- An RGB pixel: the channel triple read from a radar raster. -/
abbrev Pixel := ℕ × ℕ × ℕ

/-- RadarRainChecker.NO_RAIN. -/
def NO_RAIN : ℕ := 0

/-- RadarRainChecker.LIGHT_RAIN. -/
def LIGHT_RAIN : ℕ := 1

/-- RadarRainChecker.MODERATE_RAIN. -/
def MODERATE_RAIN : ℕ := 2

/-- RadarRainChecker.HEAVY_RAIN. -/
def HEAVY_RAIN : ℕ := 3

/-- Python `abs(a - b)` on channel values (Python ints do not wrap). -/
def absdiff (a b : ℕ) : ℕ := Int.natAbs ((a : ℤ) - (b : ℤ))

/-- RadarRainChecker.get_pixel_intensity (radar_rain_checker.py lines 156-190):
rain intensity of one pixel color, Meteocat legend thresholds, first match
wins.  Python scalar ints do not overflow, so the sums r+30 etc. are exact. -/
def get_pixel_intensity (p : Pixel) : ℕ :=
  let r := p.1
  let g := p.2.1
  let b := p.2.2
  if (max r (max g b) < 50 ∨ 240 < min r (min g b)) ∨
      (absdiff r g < 20 ∧ absdiff r b < 20 ∧ 80 ≤ r ∧ r ≤ 240) then NO_RAIN
  else if (180 < r ∧ 80 ≤ g ∧ g < 180 ∧ b < 80) ∨ (180 < r ∧ g < 80 ∧ b < 80) then
    HEAVY_RAIN
  else if (r + 30 < g ∧ b + 30 < g ∧ 100 < g) ∨ (120 < r ∧ 120 < g ∧ b < 80) ∨
      (120 < r ∧ g < 120 ∧ 120 < b) then MODERATE_RAIN
  else if r + 30 < b ∧ g + 10 < b ∧ 120 < b ∧ r < g then LIGHT_RAIN
  else NO_RAIN

/-- RadarRainChecker.is_rain_color (lines 192-195): a pixel counts as rain when
its intensity tier is above NO_RAIN. -/
def is_rain_color (p : Pixel) : Bool :=
  decide (NO_RAIN < get_pixel_intensity p)

/-- Per-pixel semantics of RadarRainChecker._is_storm_pixel_array
(lines 293-321): the boolean precipitation mask the compositor uses.  The
NumPy source computes `r + 30`, `g + 10`, `b + 30` on uint8 arrays, which
wraps modulo 256; the gray mask uses `astype(int)` and so does not wrap. -/
def _is_storm_pixel_array (p : Pixel) : Bool :=
  let r := p.1
  let g := p.2.1
  let b := p.2.2
  let dark := max r (max g b) < 50
  let light := 240 < min r (min g b)
  let gray := absdiff r g < 20 ∧ absdiff r b < 20 ∧ 80 ≤ r ∧ r ≤ 240
  let cyan := (r + 30) % 256 < b ∧ (g + 10) % 256 < b ∧ 120 < b ∧ r < g
  let green := (r + 30) % 256 < g ∧ (b + 30) % 256 < g ∧ 100 < g
  let yellow := 120 < r ∧ 120 < g ∧ b < 80
  let orange := 180 < r ∧ 80 ≤ g ∧ g < 180 ∧ b < 80
  let red := 180 < r ∧ g < 80 ∧ b < 80
  let magenta := 120 < r ∧ g < 120 ∧ 120 < b
  decide ((cyan ∨ green ∨ yellow ∨ orange ∨ red ∨ magenta) ∧ ¬(dark ∨ light ∨ gray))

/-- The decision policy exactly as worded in the specification (spec section
4.1 / claim C3), written independently of the source for comparison. -/
def classifySpecPolicy (p : Pixel) : ℕ :=
  let r := p.1
  let g := p.2.1
  let b := p.2.2
  if (max r (max g b) < 50 ∨ 240 < min r (min g b)) ∨
      (absdiff r g < 20 ∧ absdiff r b < 20 ∧ 80 ≤ r ∧ r ≤ 240) then NO_RAIN
  else if (180 < r ∧ 80 ≤ g ∧ g < 180 ∧ b < 80) ∨ (180 < r ∧ g < 80 ∧ b < 80) then
    HEAVY_RAIN
  else if (r + 30 < g ∧ b + 30 < g ∧ 100 < g) ∨ (120 < r ∧ 120 < g ∧ b < 80) ∨
      (120 < r ∧ g < 120 ∧ 120 < b) then MODERATE_RAIN
  else if r + 30 < b ∧ g + 10 < b ∧ 120 < b ∧ r < g then LIGHT_RAIN
  else NO_RAIN

/-- RadarRainChecker.contains_rain_color (lines 197-202): at least 2 rain
pixels are required on samples longer than 10, else at least 1. -/
def contains_rain_color (pixels : List Pixel) : Bool :=
  let rain_pixel_count := pixels.countP is_rain_color
  let threshold := if 10 < pixels.length then 2 else 1
  decide (threshold ≤ rain_pixel_count)

/-- C3: get_pixel_intensity is total and deterministic (it is a Lean function)
and implements the specification decision policy in precedence order; in
particular every triple with max channel below 50 or min channel above 240
classifies as NO_RAIN. -/
theorem C3_classifier_policy (r g b : ℕ) :
    get_pixel_intensity (r, g, b) = classifySpecPolicy (r, g, b) ∧
    (max r (max g b) < 50 ∨ 240 < min r (min g b) →
      get_pixel_intensity (r, g, b) = NO_RAIN) := by
  constructor
  · rfl
  · intro h
    simp only [get_pixel_intensity]
    split_ifs with h1 h2 h3 h4 <;> first
      | rfl
      | exact absurd (Or.inl h) h1

/-- Witness for C3 at the concrete triple (10,10,10), max channel below 50. -/
theorem C3_classifier_policy_witness : get_pixel_intensity (10, 10, 10) = NO_RAIN :=
  (C3_classifier_policy 10 10 10).2 (Or.inl (by decide))

/-- C1 counterexample: at the concrete pixel (230, 240, 255) the scalar
classifier reports no rain (255 > 230 + 30 fails) but the vectorized mask
marks the pixel as storm, because the uint8 sum 230 + 30 wraps to 4. -/
theorem C1_counterexample :
    _is_storm_pixel_array (230, 240, 255) = true ∧
    is_rain_color (230, 240, 255) = false := by
  decide

/-- Characterization of the scalar rain test as one proposition. -/
theorem is_rain_color_iff (r g b : ℕ) :
    is_rain_color (r, g, b) = true ↔
      (¬((max r (max g b) < 50 ∨ 240 < min r (min g b)) ∨
          (absdiff r g < 20 ∧ absdiff r b < 20 ∧ 80 ≤ r ∧ r ≤ 240)) ∧
        ((180 < r ∧ 80 ≤ g ∧ g < 180 ∧ b < 80) ∨ (180 < r ∧ g < 80 ∧ b < 80) ∨
          (r + 30 < g ∧ b + 30 < g ∧ 100 < g) ∨ (120 < r ∧ 120 < g ∧ b < 80) ∨
          (120 < r ∧ g < 120 ∧ 120 < b) ∨
          (r + 30 < b ∧ g + 10 < b ∧ 120 < b ∧ r < g))) := by
  simp only [is_rain_color, get_pixel_intensity, decide_eq_true_eq]
  split_ifs with h1 h2 h3 h4
  · exact iff_of_false (by decide) fun hc => hc.1 h1
  · refine iff_of_true (by decide) ⟨h1, ?_⟩
    rcases h2 with h | h
    · exact Or.inl h
    · exact Or.inr (Or.inl h)
  · refine iff_of_true (by decide) ⟨h1, ?_⟩
    rcases h3 with h | h | h
    · exact Or.inr (Or.inr (Or.inl h))
    · exact Or.inr (Or.inr (Or.inr (Or.inl h)))
    · exact Or.inr (Or.inr (Or.inr (Or.inr (Or.inl h))))
  · exact iff_of_true (by decide)
      ⟨h1, Or.inr (Or.inr (Or.inr (Or.inr (Or.inr h4))))⟩
  · refine iff_of_false (by decide) fun hc => ?_
    rcases hc.2 with h | h | h | h | h | h
    · exact h2 (Or.inl h)
    · exact h2 (Or.inr h)
    · exact h3 (Or.inl h)
    · exact h3 (Or.inr (Or.inl h))
    · exact h3 (Or.inr (Or.inr h))
    · exact h4 h

/-- Characterization of the vectorized storm mask as one proposition. -/
theorem is_storm_pixel_iff (r g b : ℕ) :
    _is_storm_pixel_array (r, g, b) = true ↔
      ((((r + 30) % 256 < b ∧ (g + 10) % 256 < b ∧ 120 < b ∧ r < g) ∨
          ((r + 30) % 256 < g ∧ (b + 30) % 256 < g ∧ 100 < g) ∨
          (120 < r ∧ 120 < g ∧ b < 80) ∨
          (180 < r ∧ 80 ≤ g ∧ g < 180 ∧ b < 80) ∨
          (180 < r ∧ g < 80 ∧ b < 80) ∨
          (120 < r ∧ g < 120 ∧ 120 < b)) ∧
        ¬(max r (max g b) < 50 ∨ 240 < min r (min g b) ∨
          (absdiff r g < 20 ∧ absdiff r b < 20 ∧ 80 ≤ r ∧ r ≤ 240))) := by
  simp only [_is_storm_pixel_array, decide_eq_true_eq]

/-- C1 amended: the scalar per-pixel rain test and the vectorized mask agree
on every RGB triple whose channels keep the uint8 sums of the NumPy masks
from overflowing, that is whenever r ≤ 225, g ≤ 245 and b ≤ 225. -/
theorem C1_mask_agrees_no_overflow (r g b : ℕ)
    (hr : r ≤ 225) (hg : g ≤ 245) (hb : b ≤ 225) :
    _is_storm_pixel_array (r, g, b) = is_rain_color (r, g, b) := by
  have hr30 : (r + 30) % 256 = r + 30 := Nat.mod_eq_of_lt (by omega)
  have hg10 : (g + 10) % 256 = g + 10 := Nat.mod_eq_of_lt (by omega)
  have hb30 : (b + 30) % 256 = b + 30 := Nat.mod_eq_of_lt (by omega)
  have hs := is_storm_pixel_iff r g b
  rw [hr30, hg10, hb30] at hs
  have hv := is_rain_color_iff r g b
  rw [Bool.eq_iff_iff, hs, hv]
  constructor
  · rintro ⟨hrain, hN⟩
    refine ⟨fun h => hN (or_assoc.mp h), ?_⟩
    rcases hrain with h | h | h | h | h | h
    · exact Or.inr (Or.inr (Or.inr (Or.inr (Or.inr h))))
    · exact Or.inr (Or.inr (Or.inl h))
    · exact Or.inr (Or.inr (Or.inr (Or.inl h)))
    · exact Or.inl h
    · exact Or.inr (Or.inl h)
    · exact Or.inr (Or.inr (Or.inr (Or.inr (Or.inl h))))
  · rintro ⟨hN, hrain⟩
    refine ⟨?_, fun h => hN (or_assoc.mpr h)⟩
    rcases hrain with h | h | h | h | h | h
    · exact Or.inr (Or.inr (Or.inr (Or.inl h)))
    · exact Or.inr (Or.inr (Or.inr (Or.inr (Or.inl h))))
    · exact Or.inr (Or.inl h)
    · exact Or.inr (Or.inr (Or.inl h))
    · exact Or.inr (Or.inr (Or.inr (Or.inr (Or.inr h))))
    · exact Or.inl h

/-- Witness for the amended C1 at the concrete light-rain pixel (0,10,130). -/
theorem C1_mask_agrees_no_overflow_witness :
    _is_storm_pixel_array (0, 10, 130) = is_rain_color (0, 10, 130) :=
  C1_mask_agrees_no_overflow 0 10 130 (by decide) (by decide) (by decide)

/-- The per-route verdict record built by RadarRainChecker.process_frames
(lines 384-399).  The intermediate counters are kept as fields so that the
verdict policy can be stated; Python floats are modelled as rationals. -/
structure RouteResult where
  will_rain : Bool
  max_intensity : ℕ
  rain_ratio : ℚ
  rain_pixels : ℕ
  valid_pixels : ℕ
  deriving Repr, DecidableEq

/-- The verdict computation of RadarRainChecker.process_frames (lines 382-389)
on the sampled pixel list: classify every sample, count rain pixels, compute
the ratio (0 on an empty sample list), take the maximum intensity (NO_RAIN on
an empty list; `foldl max NO_RAIN` agrees with Python `max` on nonempty lists
of naturals because every tier is at least NO_RAIN = 0). -/
def evaluate (pixels : List Pixel) : RouteResult :=
  let intensities := pixels.map get_pixel_intensity
  let rain_pixels := intensities.countP (fun i => decide (NO_RAIN < i))
  let valid_pixels := pixels.length
  let rain_ratio : ℚ :=
    if 0 < valid_pixels then (rain_pixels : ℚ) / (valid_pixels : ℚ) else 0
  let max_intensity := intensities.foldl max NO_RAIN
  { will_rain := decide (NO_RAIN < max_intensity)
    max_intensity := max_intensity
    rain_ratio := rain_ratio
    rain_pixels := rain_pixels
    valid_pixels := valid_pixels }

/-- The initial accumulator is a lower bound of a `foldl max`. -/
theorem le_foldl_max (l : List ℕ) : ∀ a : ℕ, a ≤ l.foldl max a := by
  induction l with
  | nil => intro a; exact le_rfl
  | cons x t ih =>
      intro a
      exact le_trans (le_max_left a x) (ih (max a x))

/-- Every member of a list is bounded by its `foldl max`. -/
theorem mem_le_foldl_max (l : List ℕ) :
    ∀ (a : ℕ) (x : ℕ), x ∈ l → x ≤ l.foldl max a := by
  induction l with
  | nil => intro a x hx; cases hx
  | cons y t ih =>
      intro a x hx
      rcases List.mem_cons.mp hx with h | h
      · subst h
        exact le_trans (le_max_right a x) (le_foldl_max t (max a x))
      · exact ih (max a y) x h

/-- A `foldl max` is either the initial accumulator or a member of the list. -/
theorem foldl_max_mem (l : List ℕ) :
    ∀ a : ℕ, l.foldl max a = a ∨ l.foldl max a ∈ l := by
  induction l with
  | nil => intro a; exact Or.inl rfl
  | cons y t ih =>
      intro a
      rcases ih (max a y) with h | h
      · rcases Nat.le_total a y with hy | hy
        · right
          rw [List.foldl_cons, h, max_eq_right hy]
          exact List.mem_cons_self y t
        · left
          rw [List.foldl_cons, h, max_eq_left hy]
      · exact Or.inr (List.mem_cons_of_mem y h)

/-- C4: the verdict counts the samples whose tier is above NO_RAIN, divides by
the sample count (0 when there are no samples), reports the maximum observed
tier (NO_RAIN when there are no samples), sets will_rain exactly when that
maximum is above NO_RAIN, and maps the empty sample list to the quiet result
without an error. -/
theorem C4_verdict_policy (pixels : List Pixel) :
    (evaluate pixels).rain_pixels =
        (pixels.filter (fun p => decide (NO_RAIN < get_pixel_intensity p))).length ∧
    (evaluate pixels).valid_pixels = pixels.length ∧
    (evaluate pixels).rain_ratio =
        (if pixels.length = 0 then 0 else
          ((pixels.filter (fun p => decide (NO_RAIN < get_pixel_intensity p))).length : ℚ) /
            (pixels.length : ℚ)) ∧
    (∀ p ∈ pixels, get_pixel_intensity p ≤ (evaluate pixels).max_intensity) ∧
    ((evaluate pixels).max_intensity = NO_RAIN ∨
      (evaluate pixels).max_intensity ∈ pixels.map get_pixel_intensity) ∧
    ((evaluate pixels).will_rain = true ↔ NO_RAIN < (evaluate pixels).max_intensity) ∧
    evaluate [] = ⟨false, NO_RAIN, 0, 0, 0⟩ := by
  have hcount : (pixels.map get_pixel_intensity).countP (fun i => decide (NO_RAIN < i)) =
      (pixels.filter (fun p => decide (NO_RAIN < get_pixel_intensity p))).length := by
    rw [List.countP_map, List.countP_eq_length_filter]
    rfl
  refine ⟨?_, rfl, ?_, ?_, ?_, ?_, rfl⟩
  · simpa [evaluate] using hcount
  · simp only [evaluate]
    rcases Nat.eq_zero_or_pos pixels.length with h | h
    · simp [h]
    · simp only [h, if_pos, hcount]
      rw [if_neg (by omega)]
  · intro p hp
    simp only [evaluate]
    exact mem_le_foldl_max (pixels.map get_pixel_intensity) NO_RAIN
      (get_pixel_intensity p) (List.mem_map_of_mem get_pixel_intensity hp)
  · simpa [evaluate] using foldl_max_mem (pixels.map get_pixel_intensity) NO_RAIN
  · simp [evaluate]

/-- Witness for C4 at the concrete one-sample list holding a light-rain pixel:
the sampled tier is bounded by the reported maximum tier. -/
theorem C4_verdict_policy_witness :
    get_pixel_intensity (0, 10, 130) ≤ (evaluate [(0, 10, 130)]).max_intensity :=
  (C4_verdict_policy [(0, 10, 130)]).2.2.2.1 (0, 10, 130) (by decide)

/-- The eleven-sample list with exactly one rain pixel used to separate
contains_rain_color from the max-tier verdict rule. -/
def elevenSamples : List Pixel :=
  List.replicate 10 (128, 128, 128) ++ [(0, 10, 130)]

/-- C10: contains_rain_color asks for at least 2 rain pixels on sample lists
longer than 10 and at least 1 otherwise; consequently a single rain pixel
among eleven samples makes contains_rain_color false while the verdict rule
(max tier above NO_RAIN) still reports rain. -/
theorem C10_contains_rain_threshold :
    (∀ pixels : List Pixel,
      contains_rain_color pixels = true ↔
        (if 10 < pixels.length then
          2 ≤ (pixels.filter is_rain_color).length
        else
          1 ≤ (pixels.filter is_rain_color).length)) ∧
    contains_rain_color elevenSamples = false ∧
    (evaluate elevenSamples).will_rain = true := by
  refine ⟨?_, by decide, by decide⟩
  intro pixels
  simp only [contains_rain_color, List.countP_eq_length_filter, decide_eq_true_eq]
  split_ifs with h <;> exact Iff.rfl

/-- A scraped radar frame: a timestamp label (opaque, modelled as a natural)
and the raster flattened to a pixel list; compositing is elementwise, and all
frames of one run share the same length (the claim hypotheses carry this). -/
structure Frame where
  time : ℕ
  image : List Pixel
  deriving Repr, DecidableEq

/-- Elementwise `is_storm_frame & ~is_storm_base` of create_composite_image
(line 342). -/
def newStormMask (frame : List Pixel) (base : List Bool) : List Bool :=
  List.zipWith (fun f m => _is_storm_pixel_array f && !m) frame base

/-- Elementwise `np.where(new_storm_mask[..., None], frame_array, comp_array)`
(line 345). -/
def npWhere : List Bool → List Pixel → List Pixel → List Pixel
  | m :: ms, f :: fs, c :: cs => (if m then f else c) :: npWhere ms fs cs
  | _, _, _ => []

/-- Elementwise `is_storm_base |= new_storm_mask` (line 346). -/
def orMask (base new : List Bool) : List Bool :=
  List.zipWith (fun a b => a || b) base new

/-- One iteration of the compositing loop of create_composite_image
(lines 334-346), carried over the (composite, running storm mask) state. -/
def compositeStep (st : List Pixel × List Bool) (frame : List Pixel) :
    List Pixel × List Bool :=
  let nm := newStormMask frame st.2
  (npWhere nm frame st.1, orMask st.2 nm)

/-- RadarRainChecker.create_composite_image (lines 323-348): an empty frame
list yields (None, []); otherwise the composite starts as the first frame and
every later frame writes exactly the pixels that are storm in it but not yet
marked storm in the running mask.  The timestamps are returned in input
order. -/
def create_composite_image (frames : List Frame) : Option (List Pixel) × List ℕ :=
  match frames with
  | [] => (none, [])
  | f0 :: rest =>
      let st := rest.foldl (fun s fr => compositeStep s fr.image)
        (f0.image, f0.image.map _is_storm_pixel_array)
      (some st.1, (f0 :: rest).map Frame.time)

/-- Pixel access into a flattened raster, with a dummy default. -/
def pixAt (l : List Pixel) (p : ℕ) : Pixel := l.getD p (0, 0, 0)

/-- Mask access, with a dummy default. -/
def maskAt (l : List Bool) (p : ℕ) : Bool := l.getD p false

/-- C9: compositing an empty frame list is not an error: it returns the null
composite together with the empty timestamp list. -/
theorem C9_empty_frames : create_composite_image [] = (none, []) := rfl

/-- Length of the elementwise where. -/
theorem npWhere_length : ∀ (m : List Bool) (f c : List Pixel),
    m.length = f.length → f.length = c.length →
    (npWhere m f c).length = m.length := by
  intro m
  induction m with
  | nil => intro f c _ _; rfl
  | cons mv ms ih =>
      intro f c hmf hfc
      cases f with
      | nil => simp at hmf
      | cons fv fs =>
          cases c with
          | nil => simp at hfc
          | cons cv cs =>
              simp only [npWhere, List.length_cons]
              rw [ih fs cs (by simpa using hmf) (by simpa using hfc)]

/-- The composite step preserves the common raster length. -/
theorem compositeStep_length (L : ℕ) (st : List Pixel × List Bool)
    (frame : List Pixel) (h1 : st.1.length = L) (h2 : st.2.length = L)
    (hf : frame.length = L) :
    (compositeStep st frame).1.length = L ∧
      (compositeStep st frame).2.length = L := by
  have hnm : (newStormMask frame st.2).length = L := by
    simp [newStormMask, hf, h2]
  constructor
  · rw [show (compositeStep st frame).1 = npWhere (newStormMask frame st.2) frame st.1 from rfl]
    rw [npWhere_length _ _ _ (by rw [hnm, hf]) (by rw [hf, h1]), hnm]
  · simp [compositeStep, orMask, h2, hnm]

/-- The compositing fold preserves the common raster length. -/
theorem foldl_compositeStep_length (L : ℕ) : ∀ (ms : List Frame)
    (st : List Pixel × List Bool), st.1.length = L → st.2.length = L →
    (∀ f ∈ ms, f.image.length = L) →
    (ms.foldl (fun s fr => compositeStep s fr.image) st).1.length = L ∧
      (ms.foldl (fun s fr => compositeStep s fr.image) st).2.length = L := by
  intro ms
  induction ms with
  | nil => intro st h1 h2 _; exact ⟨h1, h2⟩
  | cons f t ih =>
      intro st h1 h2 hall
      have hf : f.image.length = L := hall f (List.mem_cons_self f t)
      have hst := compositeStep_length L st f.image h1 h2 hf
      simpa using ih (compositeStep st f.image) hst.1 hst.2
        (fun g hg => hall g (List.mem_cons_of_mem f hg))

/-- Pointwise value of the elementwise where. -/
theorem pixAt_npWhere : ∀ (m : List Bool) (f c : List Pixel) (p : ℕ),
    p < m.length → m.length = f.length → f.length = c.length →
    pixAt (npWhere m f c) p = (if maskAt m p then pixAt f p else pixAt c p) := by
  intro m
  induction m with
  | nil => intro f c p hp _ _; simp at hp
  | cons mv ms ih =>
      intro f c p hp hmf hfc
      cases f with
      | nil => simp at hmf
      | cons fv fs =>
          cases c with
          | nil => simp at hfc
          | cons cv cs =>
              cases p with
              | zero => simp [npWhere, pixAt, maskAt]
              | succ q =>
                  simp only [npWhere, pixAt, maskAt, List.getD_cons_succ]
                  exact ih fs cs q (by simpa using hp) (by simpa using hmf)
                    (by simpa using hfc)

/-- Pointwise value of the new-storm mask. -/
theorem maskAt_newStormMask : ∀ (f : List Pixel) (b : List Bool) (p : ℕ),
    p < f.length → f.length = b.length →
    maskAt (newStormMask f b) p =
      (_is_storm_pixel_array (pixAt f p) && !(maskAt b p)) := by
  intro f
  induction f with
  | nil => intro b p hp _; simp at hp
  | cons fv fs ih =>
      intro b p hp hfb
      cases b with
      | nil => simp at hfb
      | cons bv bs =>
          cases p with
          | zero => simp [newStormMask, pixAt, maskAt]
          | succ q =>
              simp only [newStormMask, List.zipWith_cons_cons, pixAt, maskAt,
                List.getD_cons_succ]
              exact ih bs q (by simpa using hp) (by simpa using hfb)

/-- Pointwise value of the mask union. -/
theorem maskAt_orMask : ∀ (a b : List Bool) (p : ℕ),
    p < a.length → a.length = b.length →
    maskAt (orMask a b) p = (maskAt a p || maskAt b p) := by
  intro a
  induction a with
  | nil => intro b p hp _; simp at hp
  | cons av as2 ih =>
      intro b p hp hab
      cases b with
      | nil => simp at hab
      | cons bv bs =>
          cases p with
          | zero => simp [orMask, maskAt]
          | succ q =>
              simp only [orMask, List.zipWith_cons_cons, maskAt, List.getD_cons_succ]
              exact ih bs q (by simpa using hp) (by simpa using hab)

/-- Pointwise value of the initial storm mask of the first frame. -/
theorem maskAt_map_storm : ∀ (img : List Pixel) (p : ℕ), p < img.length →
    maskAt (img.map _is_storm_pixel_array) p = _is_storm_pixel_array (pixAt img p) := by
  intro img
  induction img with
  | nil => intro p hp; simp at hp
  | cons v t ih =>
      intro p hp
      cases p with
      | zero => simp [maskAt, pixAt]
      | succ q =>
          simp only [List.map_cons, maskAt, pixAt, List.getD_cons_succ]
          exact ih q (by simpa using hp)

/-- Once the running mask holds at a pixel, one composite step changes neither
the composite color nor the mask there. -/
theorem compositeStep_stable (L : ℕ) (st : List Pixel × List Bool)
    (frame : List Pixel) (p : ℕ) (h1 : st.1.length = L) (h2 : st.2.length = L)
    (hf : frame.length = L) (hp : p < L) (hm : maskAt st.2 p = true) :
    pixAt (compositeStep st frame).1 p = pixAt st.1 p ∧
      maskAt (compositeStep st frame).2 p = true := by
  have hnm : maskAt (newStormMask frame st.2) p = false := by
    rw [maskAt_newStormMask frame st.2 p (by omega) (by rw [hf, h2]), hm]
    simp
  constructor
  · rw [show (compositeStep st frame).1 = npWhere (newStormMask frame st.2) frame st.1 from rfl]
    rw [pixAt_npWhere _ _ _ p
        (by simp [newStormMask, hf, h2, hp])
        (by simp [newStormMask, hf, h2])
        (by rw [hf, h1]),
      hnm]
    simp
  · rw [show (compositeStep st frame).2 = orMask st.2 (newStormMask frame st.2) from rfl]
    rw [maskAt_orMask _ _ p (by omega) (by simp [newStormMask, hf, h2]), hm]
    simp

/-- Once the running mask holds at a pixel, the whole remaining compositing
fold leaves the composite color there unchanged. -/
theorem foldl_compositeStep_stable (L : ℕ) : ∀ (ms : List Frame)
    (st : List Pixel × List Bool) (p : ℕ), st.1.length = L → st.2.length = L →
    (∀ f ∈ ms, f.image.length = L) → p < L → maskAt st.2 p = true →
    pixAt (ms.foldl (fun s fr => compositeStep s fr.image) st).1 p = pixAt st.1 p := by
  intro ms
  induction ms with
  | nil => intro st p _ _ _ _ _; rfl
  | cons f t ih =>
      intro st p h1 h2 hall hp hm
      have hf : f.image.length = L := hall f (List.mem_cons_self f t)
      have hst := compositeStep_stable L st f.image p h1 h2 hf hp hm
      have hlen := compositeStep_length L st f.image h1 h2 hf
      simp only [List.foldl_cons]
      rw [ih (compositeStep st f.image) p hlen.1 hlen.2
          (fun g hg => hall g (List.mem_cons_of_mem f hg)) hp hst.2]
      exact hst.1

/-- A frame that is storm at a pixel marks that pixel in the running mask. -/
theorem compositeStep_marks (L : ℕ) (st : List Pixel × List Bool)
    (frame : List Pixel) (p : ℕ) (h2 : st.2.length = L) (hf : frame.length = L)
    (hp : p < L) (hs : _is_storm_pixel_array (pixAt frame p) = true) :
    maskAt (compositeStep st frame).2 p = true := by
  rw [show (compositeStep st frame).2 = orMask st.2 (newStormMask frame st.2) from rfl]
  rw [maskAt_orMask _ _ p (by omega) (by simp [newStormMask, hf, h2])]
  rw [maskAt_newStormMask frame st.2 p (by omega) (by rw [hf, h2]), hs]
  cases h : maskAt st.2 p <;> simp

/-- C2: first-writer-wins compositing invariant.  For frames of one common
raster length, if the pixel at position p of frame i is classified as
precipitating by the compositor mask, then the frames after i do not change
the composite color at p: compositing the whole list agrees at p with
compositing only the first i+1 frames. -/
theorem C2_first_writer_wins (frames : List Frame) (L i p : ℕ)
    (hL : ∀ f ∈ frames, f.image.length = L)
    (hi : i < frames.length) (hp : p < L)
    (hstorm : _is_storm_pixel_array (pixAt (frames.getD i ⟨0, []⟩).image p) = true) :
    ((create_composite_image frames).1).map (fun img => pixAt img p) =
      ((create_composite_image (frames.take (i + 1))).1).map (fun img => pixAt img p) := by
  cases frames with
  | nil => simp at hi
  | cons f0 rest =>
      have hL0 : f0.image.length = L := hL f0 (List.mem_cons_self f0 rest)
      have h10 : (f0.image, f0.image.map _is_storm_pixel_array).1.length = L := hL0
      have h20 : (f0.image, f0.image.map _is_storm_pixel_array).2.length = L := by
        simpa using hL0
      have htakesub : ∀ f ∈ rest.take i, f.image.length = L := fun f hf =>
        hL f (List.mem_cons_of_mem f0 (List.take_subset i rest hf))
      have hlenI := foldl_compositeStep_length L (rest.take i)
        (f0.image, f0.image.map _is_storm_pixel_array) h10 h20 htakesub
      have hmask : maskAt ((rest.take i).foldl (fun s fr => compositeStep s fr.image)
          (f0.image, f0.image.map _is_storm_pixel_array)).2 p = true := by
        cases i with
        | zero =>
            simp only [List.take_zero, List.foldl_nil]
            rw [maskAt_map_storm f0.image p (by omega)]
            simpa using hstorm
        | succ k =>
            have hk : k < rest.length := by
              simpa using hi
            have htk : rest.take (k + 1) = rest.take k ++ [rest[k]] := by
              rw [List.take_succ, List.getElem?_eq_getElem hk]
              rfl
            have hsk : _is_storm_pixel_array (pixAt (rest[k]).image p) = true := by
              rw [List.getD_cons_succ, List.getD_eq_getElem?_getD,
                List.getElem?_eq_getElem hk] at hstorm
              simpa using hstorm
            have htksub : ∀ f ∈ rest.take k, f.image.length = L := fun f hf =>
              hL f (List.mem_cons_of_mem f0 (List.take_subset k rest hf))
            have hlenK := foldl_compositeStep_length L (rest.take k)
              (f0.image, f0.image.map _is_storm_pixel_array) h10 h20 htksub
            rw [htk, List.foldl_append]
            exact compositeStep_marks L _ _ p hlenK.2
              (hL _ (List.mem_cons_of_mem f0 (List.getElem_mem hk))) hp hsk
      have hfold : rest.foldl (fun s fr => compositeStep s fr.image)
          (f0.image, f0.image.map _is_storm_pixel_array) =
          (rest.drop i).foldl (fun s fr => compositeStep s fr.image)
            ((rest.take i).foldl (fun s fr => compositeStep s fr.image)
              (f0.image, f0.image.map _is_storm_pixel_array)) := by
        conv_lhs => rw [← List.take_append_drop i rest]
        rw [List.foldl_append]
      have hstable := foldl_compositeStep_stable L (rest.drop i)
        ((rest.take i).foldl (fun s fr => compositeStep s fr.image)
          (f0.image, f0.image.map _is_storm_pixel_array)) p hlenI.1 hlenI.2
        (fun f hf => hL f (List.mem_cons_of_mem f0 (List.drop_subset i rest hf))) hp hmask
      simp only [create_composite_image, List.take_succ_cons, Option.map_some']
      rw [hfold, hstable]

/-- The two-frame example of the specification: frame0 = [red, gray],
frame1 = [gray, red]. -/
def specExampleFrames : List Frame :=
  [⟨800, [(255, 0, 0), (200, 200, 200)]⟩, ⟨830, [(200, 200, 200), (255, 0, 0)]⟩]

/-- Witness for C2 on the two-frame spec example at pixel 0, which frame 0
already marks as storm (red): the full composite agrees there with the
composite of the first frame alone. -/
theorem C2_first_writer_wins_witness :
    ((create_composite_image specExampleFrames).1).map (fun img => pixAt img 0) =
      ((create_composite_image (specExampleFrames.take 1)).1).map (fun img => pixAt img 0) :=
  C2_first_writer_wins specExampleFrames 2 0 0 (by decide) (by decide) (by decide) (by decide)

/-- Python `int()` truncation toward zero on a rational. -/
def truncQ (q : ℚ) : ℤ := if q < 0 then ⌈q⌉ else ⌊q⌋

/-- RadarRainChecker.latlon_to_pixels (lines 139-145): linear projection of a
geographic coordinate into pixel space.  The bounds tuple is
(lat_min, lon_min, lat_max, lon_max); Python raises ZeroDivisionError on a
degenerate axis, modelled as the `Except.error` branch.  The x coordinate is
computed before the latitude denominator is touched, matching the source
order. -/
def latlon_to_pixels (mb : ℚ × ℚ × ℚ × ℚ) (lat lon : ℚ) (w h : ℤ) :
    Except Unit (ℤ × ℤ) :=
  let lat_min := mb.1
  let lon_min := mb.2.1
  let lat_max := mb.2.2.1
  let lon_max := mb.2.2.2
  if lon_max - lon_min = 0 then Except.error () else
  let x : ℚ := (lon - lon_min) / (lon_max - lon_min) * (w : ℚ)
  if lat_max - lat_min = 0 then Except.error () else
  let y : ℚ := (lat_max - lat) / (lat_max - lat_min) * (h : ℚ)
  Except.ok (truncQ x, truncQ y)

/-- C5 counterexample: with the unit bounding box and a 16x16 raster, the
point (lat 1/2, lon -1/32) lies outside the box (its longitude is below
lon_min) yet projects to pixel (0, 8), which is inside [0,16)x[0,16):
Python int() truncates -1/2 toward zero. -/
theorem C5_counterexample :
    latlon_to_pixels (0, 0, 1, 1) (1/2) (-1/32) 16 16 = Except.ok (0, 8) ∧
    (-1/32 : ℚ) < 0 ∧
    (0 ≤ (0 : ℤ) ∧ (0 : ℤ) < 16 ∧ 0 ≤ (8 : ℤ) ∧ (8 : ℤ) < 16) := by
  refine ⟨?_, by norm_num, by norm_num⟩
  rw [latlon_to_pixels, if_neg (by norm_num), if_neg (by norm_num)]
  norm_num [truncQ]

/-- Truncation toward zero of a rational at least a positive integer bound
stays at least that bound. -/
theorem truncQ_ge (q : ℚ) (m : ℤ) (hm : 0 < m) (h : (m : ℚ) ≤ q) :
    m ≤ truncQ q := by
  have hq : ¬q < 0 := by
    intro hq
    have : (m : ℚ) < 0 := lt_of_le_of_lt h hq
    exact absurd (by exact_mod_cast this) (by omega)
  rw [truncQ, if_neg hq]
  exact Int.le_floor.mpr h

/-- Truncation toward zero of a rational at most -1 stays at most -1. -/
theorem truncQ_le_neg_one (q : ℚ) (h : q ≤ -1) : truncQ q ≤ -1 := by
  have hq : q < 0 := lt_of_le_of_lt h (by norm_num)
  rw [truncQ, if_pos hq]
  exact Int.ceil_le.mpr (by exact_mod_cast h)

/-- C5 amended: for a well-formed bounding box and positive raster dimensions,
a geographic point outside the box projects to a pixel outside
[0,w) x [0,h) provided the overshoot past the lon_min / lat_max edges (the
edges whose projection is negative) amounts to at least one pixel; points
within one pixel beyond those two edges can truncate onto column 0 / row 0
because Python int() truncates toward zero. -/
theorem C5_projection_out_of_bounds
    (lat_min lon_min lat_max lon_max lat lon : ℚ) (w h : ℤ)
    (hlat : lat_min < lat_max) (hlon : lon_min < lon_max)
    (hw : 0 < w) (hh : 0 < h)
    (hout : lat < lat_min ∨ lat_max < lat ∨ lon < lon_min ∨ lon_max < lon)
    (hlonfar : lon_min ≤ lon ∨ lon_max - lon_min ≤ (lon_min - lon) * (w : ℚ))
    (hlatfar : lat ≤ lat_max ∨ lat_max - lat_min ≤ (lat - lat_max) * (h : ℚ))
    (x y : ℤ)
    (hres : latlon_to_pixels (lat_min, lon_min, lat_max, lon_max) lat lon w h =
      Except.ok (x, y)) :
    ¬(0 ≤ x ∧ x < w ∧ 0 ≤ y ∧ y < h) := by
  have hdlon : (0 : ℚ) < lon_max - lon_min := by linarith
  have hdlat : (0 : ℚ) < lat_max - lat_min := by linarith
  have hwq : (0 : ℚ) < (w : ℚ) := by exact_mod_cast hw
  have hhq : (0 : ℚ) < (h : ℚ) := by exact_mod_cast hh
  simp only [latlon_to_pixels] at hres
  rw [if_neg (ne_of_gt hdlon), if_neg (ne_of_gt hdlat)] at hres
  simp only [Except.ok.injEq, Prod.mk.injEq] at hres
  obtain ⟨hx, hy⟩ := hres
  rintro ⟨hx0, hxw, hy0, hyh⟩
  rcases hout with hc | hc | hc | hc
  · -- lat below lat_min: the y projection reaches at least h
    have hnum : (lat_max - lat_min) * (h : ℚ) < (lat_max - lat) * (h : ℚ) :=
      mul_lt_mul_of_pos_right (by linarith) hhq
    have hyq : (h : ℚ) ≤ (lat_max - lat) / (lat_max - lat_min) * (h : ℚ) := by
      rw [div_mul_eq_mul_div, le_div_iff₀ hdlat]
      nlinarith
    have := truncQ_ge _ h hh hyq
    omega
  · -- lat above lat_max: the y projection is at most -1
    rcases hlatfar with hfar | hfar
    · linarith
    · have hyq : (lat_max - lat) / (lat_max - lat_min) * (h : ℚ) ≤ -1 := by
        rw [div_mul_eq_mul_div, div_le_iff₀ hdlat]
        nlinarith
      have := truncQ_le_neg_one _ hyq
      omega
  · -- lon below lon_min: the x projection is at most -1
    rcases hlonfar with hfar | hfar
    · linarith
    · have hxq : (lon - lon_min) / (lon_max - lon_min) * (w : ℚ) ≤ -1 := by
        rw [div_mul_eq_mul_div, div_le_iff₀ hdlon]
        nlinarith
      have := truncQ_le_neg_one _ hxq
      omega
  · -- lon above lon_max: the x projection reaches at least w
    have hnum : (lon_max - lon_min) * (w : ℚ) < (lon - lon_min) * (w : ℚ) :=
      mul_lt_mul_of_pos_right (by linarith) hwq
    have hxq : (w : ℚ) ≤ (lon - lon_min) / (lon_max - lon_min) * (w : ℚ) := by
      rw [div_mul_eq_mul_div, le_div_iff₀ hdlon]
      nlinarith
    have := truncQ_ge _ w hw hxq
    omega

/-- Witness for the amended C5: with the unit box, a 16x16 raster and a point
whose longitude 2 exceeds lon_max = 1, the projection lands at pixel (32, 8),
outside the raster. -/
theorem C5_projection_out_of_bounds_witness :
    latlon_to_pixels (0, 0, 1, 1) (1/2) 2 16 16 = Except.ok (32, 8) ∧
    ¬(0 ≤ (32 : ℤ) ∧ (32 : ℤ) < 16 ∧ 0 ≤ (8 : ℤ) ∧ (8 : ℤ) < 16) := by
  have hres : latlon_to_pixels ((0 : ℚ), (0 : ℚ), (1 : ℚ), (1 : ℚ)) (1/2) 2 16 16 =
      Except.ok (32, 8) := by
    rw [latlon_to_pixels, if_neg (by norm_num), if_neg (by norm_num)]
    norm_num [truncQ]
  refine ⟨hres, ?_⟩
  exact C5_projection_out_of_bounds 0 0 1 1 (1/2) 2 16 16 (by norm_num) (by norm_num)
    (by norm_num) (by norm_num) (by norm_num) (by norm_num) (by norm_num) 32 8 hres

/-- A raster image as consumed by the sampler: pixel dimensions plus a total
color lookup (PIL `getpixel` is only ever called at in-bounds coordinates). -/
structure Img where
  width : ℤ
  height : ℤ
  pix : ℤ → ℤ → Pixel

/-- The in-bounds test `0 <= x < img.width and 0 <= y < img.height` used by
get_pixels_along_line (lines 215, 225, 232). -/
def inB (img : Img) (x y : ℤ) : Bool :=
  decide (0 ≤ x ∧ x < img.width ∧ 0 ≤ y ∧ y < img.height)

/-- The x-dominant Bresenham loop of get_pixels_along_line (lines 212-221):
`while x != x1` runs exactly |x1 - x0| iterations because x starts at x0 and
steps by sx toward x1 each iteration; that count is the fuel argument.  The
error accumulator is the Python float dx/2.0, modelled as a rational. -/
def lineLoopX (img : Img) (dx dy sx sy : ℤ) : ℕ → ℤ → ℤ → ℚ → List Pixel
  | 0, _, _, _ => []
  | n + 1, x, y, err =>
      let here := if inB img x y then [img.pix x y] else []
      let e2 := err - (dy : ℚ)
      if e2 < 0 then
        here ++ lineLoopX img dx dy sx sy n (x + sx) (y + sy) (e2 + (dx : ℚ))
      else
        here ++ lineLoopX img dx dy sx sy n (x + sx) y e2

/-- The y-dominant Bresenham loop of get_pixels_along_line (lines 222-231):
`while y != y1` runs exactly |y1 - y0| iterations. -/
def lineLoopY (img : Img) (dx dy sx sy : ℤ) : ℕ → ℤ → ℤ → ℚ → List Pixel
  | 0, _, _, _ => []
  | n + 1, x, y, err =>
      let here := if inB img x y then [img.pix x y] else []
      let e2 := err - (dx : ℚ)
      if e2 < 0 then
        here ++ lineLoopY img dx dy sx sy n (x + sx) (y + sy) (e2 + (dy : ℚ))
      else
        here ++ lineLoopY img dx dy sx sy n x (y + sy) e2

/-- RadarRainChecker.get_pixels_along_line (lines 204-234): Bresenham walk
from (x0,y0) to (x1,y1), collecting the colors of the in-bounds points
visited by the loop, then the endpoint (x1,y1) if it is in bounds. -/
def get_pixels_along_line (img : Img) (x0 y0 x1 y1 : ℤ) : List Pixel :=
  let dx := |x1 - x0|
  let dy := |y1 - y0|
  let sx : ℤ := if x0 < x1 then 1 else -1
  let sy : ℤ := if y0 < y1 then 1 else -1
  let walk :=
    if dy < dx then lineLoopX img dx dy sx sy dx.toNat x0 y0 ((dx : ℚ) / 2)
    else lineLoopY img dx dy sx sy dy.toNat x0 y0 ((dy : ℚ) / 2)
  walk ++ (if inB img x1 y1 then [img.pix x1 y1] else [])

/-- A 3-wide, 1-tall raster with a constant color, used as a sampling
counterexample. -/
def rowImg : Img := ⟨3, 1, fun _ _ => (9, 9, 9)⟩

/-- C6 counterexample: both endpoints (-1,0) and (3,0) lie outside the 3x1
raster, yet the Bresenham walk crosses the raster and returns its three
in-bounds pixels, so the sample sequence is not empty. -/
theorem C6_counterexample :
    inB rowImg (-1) 0 = false ∧ inB rowImg 3 0 = false ∧
    get_pixels_along_line rowImg (-1) 0 3 0 = [(9, 9, 9), (9, 9, 9), (9, 9, 9)] := by
  refine ⟨by decide, by decide, ?_⟩
  norm_num [get_pixels_along_line, lineLoopX, inB, rowImg]

/-- The state RadarRainChecker.__init__ (lines 52-74) keeps for the analysis
core: the map bounds are stored as given, with no validation whatsoever. -/
structure Checker where
  map_bounds : ℚ × ℚ × ℚ × ℚ

/-- RadarRainChecker.__init__ on the analysis-relevant state: it stores the
supplied bounds unconditionally (no malformed-bbox check exists). -/
def checker_init (mb : ℚ × ℚ × ℚ × ℚ) : Checker := ⟨mb⟩

/-- The per-route verdict dictionary of process_frames (lines 393-399); the
intensity is kept as its numeric tier (RAIN_INTENSITY_MAP only renames tiers
for display). -/
structure RouteVerdict where
  will_rain : Bool
  rain_intensity : ℕ
  rain_ratio : ℚ
  deriving Repr, DecidableEq

/-- The body of the per-route try block of process_frames (lines 377-399):
project both endpoints, sample the composite along the segment, evaluate.
Any ZeroDivisionError raised by the projection propagates as the error
branch. -/
def evalRoute (mb : ℚ × ℚ × ℚ × ℚ) (img : Img) (home work : ℚ × ℚ) :
    Except Unit RouteVerdict :=
  match latlon_to_pixels mb home.1 home.2 img.width img.height with
  | Except.error e => Except.error e
  | Except.ok (xh, yh) =>
      match latlon_to_pixels mb work.1 work.2 img.width img.height with
      | Except.error e => Except.error e
      | Except.ok (xw, yw) =>
          let ev := evaluate (get_pixels_along_line img xh yh xw yw)
          Except.ok ⟨ev.will_rain, ev.max_intensity, ev.rain_ratio⟩

/-- The per-route loop of process_frames including its blanket
`except Exception` handler (lines 403-411): every error raised inside the try
block is caught internally and converted into the quiet per-route result
(will_rain False, intensity None, ratio 0). -/
def process_route (mb : ℚ × ℚ × ℚ × ℚ) (img : Img) (home work : ℚ × ℚ) :
    RouteVerdict :=
  match evalRoute mb img home work with
  | Except.ok r => r
  | Except.error _ => ⟨false, NO_RAIN, 0⟩

/-- A 4x4 all-gray raster used for the degenerate-bounds evaluation. -/
def demoImg : Img := ⟨4, 4, fun _ _ => (128, 128, 128)⟩

/-- C8 evaluation at the failing input: the malformed bounds
(lat_min = lat_max = 1) are accepted by construction without any error, the
route evaluation then hits ZeroDivisionError in the projection, and the
blanket except handler converts it into the quiet per-route result instead
of propagating it. -/
theorem C8_bbox_error_swallowed :
    (checker_init (1, 0, 1, 2)).map_bounds = (1, 0, 1, 2) ∧
    evalRoute (1, 0, 1, 2) demoImg (1/2, 1) (3/4, 1) = Except.error () ∧
    process_route (1, 0, 1, 2) demoImg (1/2, 1) (3/4, 1) = ⟨false, NO_RAIN, 0⟩ := by
  have h1 : latlon_to_pixels ((1 : ℚ), (0 : ℚ), (1 : ℚ), (2 : ℚ)) (1/2) 1
      demoImg.width demoImg.height = Except.error () := by
    rw [latlon_to_pixels, if_neg (by norm_num)]
    norm_num
  refine ⟨rfl, ?_, ?_⟩
  · rw [evalRoute]
    rw [show ((1 : ℚ)/2, (1 : ℚ)).1 = 1/2 from rfl, show ((1 : ℚ)/2, (1 : ℚ)).2 = 1 from rfl,
      h1]
  · rw [process_route, evalRoute]
    rw [show ((1 : ℚ)/2, (1 : ℚ)).1 = 1/2 from rfl, show ((1 : ℚ)/2, (1 : ℚ)).2 = 1 from rfl,
      h1]

/-- A radar frame with its raster kept two-dimensional (list of rows), used
to examine create_composite_image on frames of mismatched dimensions. -/
structure Frame2D where
  time : ℕ
  image : List (List Pixel)
  deriving Repr, DecidableEq

/-- NumPy broadcasting along the leading (row) axis: an array whose first
axis has length 1 is repeated to the common length; any other array is used
as is.  This is exactly the rule NumPy applies to the elementwise operations
of create_composite_image when the frames disagree on their row count and
one of them has a single row. -/
def bcastRows {α : Type} (n : ℕ) : List α → List α
  | [r] => List.replicate n r
  | rows => rows

/-- Ternary elementwise zip used for `np.where` rows. -/
def zip3With {α β γ δ : Type} (f : α → β → γ → δ) :
    List α → List β → List γ → List δ
  | a :: t1, b :: t2, c :: t3 => f a b c :: zip3With f t1 t2 t3
  | _, _, _ => []

/-- Elementwise binary operation on 2D arrays with row broadcasting. -/
def elem2bc {α β γ : Type} (f : α → β → γ) (A : List (List α))
    (B : List (List β)) : List (List γ) :=
  let n := max A.length B.length
  List.zipWith (fun ra rb => List.zipWith f ra rb) (bcastRows n A) (bcastRows n B)

/-- `np.where` on 2D arrays with row broadcasting. -/
def where2bc (c : List (List Bool)) (A B : List (List Pixel)) :
    List (List Pixel) :=
  let n := max c.length (max A.length B.length)
  zip3With (fun rc ra rb => zip3With (fun cv av bv => if cv then av else bv) rc ra rb)
    (bcastRows n c) (bcastRows n A) (bcastRows n B)

/-- _is_storm_pixel_array on a 2D raster. -/
def isStorm2D (img : List (List Pixel)) : List (List Bool) :=
  img.map (fun row => row.map _is_storm_pixel_array)

/-- One iteration of the compositing loop on 2D rasters with NumPy
broadcasting semantics (lines 334-346; the source performs no dimension
check, so NumPy broadcast rules decide what mismatched frames do). -/
def compositeStep2D (st : List (List Pixel) × List (List Bool))
    (frame : List (List Pixel)) : List (List Pixel) × List (List Bool) :=
  let nm := elem2bc (fun f m => f && !m) (isStorm2D frame) st.2
  (where2bc nm frame st.1, elem2bc (fun a b => a || b) st.2 nm)

/-- RadarRainChecker.create_composite_image on 2D rasters with NumPy
broadcasting semantics. -/
def create_composite_image_2d (frames : List Frame2D) :
    Option (List (List Pixel)) × List ℕ :=
  match frames with
  | [] => (none, [])
  | f0 :: rest =>
      let st := rest.foldl (fun s fr => compositeStep2D s fr.image)
        (f0.image, isStorm2D f0.image)
      (some st.1, (f0 :: rest).map Frame2D.time)

/-- C7 evaluation at the failing input: a 2x1 gray first frame composited
with a 1x1 storm-blue second frame.  The shapes differ, yet no error occurs:
NumPy broadcasts the single row of the second frame across both rows of the
composite, silently producing a composite that paints both rows blue. -/
theorem C7_mismatched_frames_broadcast :
    [[((128 : ℕ), (128 : ℕ), (128 : ℕ))], [((128 : ℕ), (128 : ℕ), (128 : ℕ))]].length = 2 ∧
    [[((0 : ℕ), (10 : ℕ), (130 : ℕ))]].length = 1 ∧
    create_composite_image_2d
        [⟨1000, [[(128, 128, 128)], [(128, 128, 128)]]⟩, ⟨1030, [[(0, 10, 130)]]⟩] =
      (some [[(0, 10, 130)], [(0, 10, 130)]], [1000, 1030]) := by
  refine ⟨rfl, rfl, ?_⟩
  decide

/-- Emptiness of the x-dominant loop: with the loop invariant
0 ≤ err and n*dy ≤ err + d*dx (d = remaining y-steps, at most dy), every
visited point is x + k*sx, y + t*sy with k < n and t ≤ d; if all those points
are out of bounds the loop collects nothing.  The invariant is the standard
Bresenham error bound and limits the y-steps to dy. -/
theorem lineLoopX_eq_nil (img : Img) (dx dy sx sy : ℤ)
    (hdy0 : 0 ≤ dy) (hdxy : dy < dx) :
    ∀ (n : ℕ) (x y : ℤ) (err : ℚ) (d : ℕ),
      (d : ℤ) ≤ dy →
      0 ≤ err →
      (n : ℚ) * (dy : ℚ) ≤ err + (d : ℚ) * (dx : ℚ) →
      (∀ k t : ℕ, k < n → t ≤ d →
        inB img (x + (k : ℤ) * sx) (y + (t : ℤ) * sy) = false) →
      lineLoopX img dx dy sx sy n x y err = [] := by
  intro n
  induction n with
  | zero => intro x y err d _ _ _ _; rfl
  | succ m ih =>
      intro x y err d hd herr hinv hoob
      have hdyq : (0 : ℚ) ≤ (dy : ℚ) := by exact_mod_cast hdy0
      have hdxq : (dy : ℚ) < (dx : ℚ) := by exact_mod_cast hdxy
      have hhere : inB img x y = false := by
        have := hoob 0 0 (Nat.succ_pos m) (Nat.zero_le d)
        simpa using this
      simp only [lineLoopX, hhere, Bool.false_eq_true, if_false, List.nil_append]
      split_ifs with hfire
      · -- the error went negative: step y as well
        cases d with
        | zero =>
            exfalso
            push_cast at hinv
            have hmdy : (0 : ℚ) ≤ (m : ℚ) * (dy : ℚ) :=
              mul_nonneg (by positivity) hdyq
            nlinarith
        | succ d2 =>
            apply ih (x + sx) (y + sy) (err - (dy : ℚ) + (dx : ℚ)) d2
            · push_cast at hd ⊢
              omega
            · linarith
            · push_cast at hinv ⊢
              nlinarith
            · intro k t hk ht
              have := hoob (k + 1) (t + 1) (by omega) (by omega)
              have hx : x + ((k : ℤ) + 1) * sx = x + sx + (k : ℤ) * sx := by ring
              have hy : y + ((t : ℤ) + 1) * sy = y + sy + (t : ℤ) * sy := by ring
              push_cast at this
              rw [hx, hy] at this
              exact this
      · -- no y-step
        apply ih (x + sx) y (err - (dy : ℚ)) d
        · exact hd
        · linarith [not_lt.mp hfire]
        · push_cast at hinv ⊢
          nlinarith
        · intro k t hk ht
          have := hoob (k + 1) t (by omega) ht
          have hx : x + ((k : ℤ) + 1) * sx = x + sx + (k : ℤ) * sx := by ring
          push_cast at this
          rw [hx] at this
          exact this

/-- Emptiness of the y-dominant loop, mirror image of lineLoopX_eq_nil:
here d bounds the remaining x-steps by dx. -/
theorem lineLoopY_eq_nil (img : Img) (dx dy sx sy : ℤ)
    (hdx0 : 0 ≤ dx) (hdxy : dx ≤ dy) :
    ∀ (n : ℕ) (x y : ℤ) (err : ℚ) (d : ℕ),
      (d : ℤ) ≤ dx →
      0 ≤ err →
      (n : ℚ) * (dx : ℚ) ≤ err + (d : ℚ) * (dy : ℚ) →
      (∀ k t : ℕ, k < n → t ≤ d →
        inB img (x + (t : ℤ) * sx) (y + (k : ℤ) * sy) = false) →
      lineLoopY img dx dy sx sy n x y err = [] := by
  intro n
  induction n with
  | zero => intro x y err d _ _ _ _; rfl
  | succ m ih =>
      intro x y err d hd herr hinv hoob
      have hdxq : (0 : ℚ) ≤ (dx : ℚ) := by exact_mod_cast hdx0
      have hdyq : (dx : ℚ) ≤ (dy : ℚ) := by exact_mod_cast hdxy
      have hhere : inB img x y = false := by
        have := hoob 0 0 (Nat.succ_pos m) (Nat.zero_le d)
        simpa using this
      simp only [lineLoopY, hhere, Bool.false_eq_true, if_false, List.nil_append]
      split_ifs with hfire
      · cases d with
        | zero =>
            exfalso
            push_cast at hinv
            have hmdx : (0 : ℚ) ≤ (m : ℚ) * (dx : ℚ) :=
              mul_nonneg (by positivity) hdxq
            nlinarith
        | succ d2 =>
            apply ih (x + sx) (y + sy) (err - (dx : ℚ) + (dy : ℚ)) d2
            · push_cast at hd ⊢
              omega
            · linarith
            · push_cast at hinv ⊢
              nlinarith
            · intro k t hk ht
              have := hoob (k + 1) (t + 1) (by omega) (by omega)
              have hx : x + ((t : ℤ) + 1) * sx = x + sx + (t : ℤ) * sx := by ring
              have hy : y + ((k : ℤ) + 1) * sy = y + sy + (k : ℤ) * sy := by ring
              push_cast at this
              rw [hx, hy] at this
              exact this
      · apply ih x (y + sy) (err - (dx : ℚ)) d
        · exact hd
        · linarith [not_lt.mp hfire]
        · push_cast at hinv ⊢
          nlinarith
        · intro k t hk ht
          have := hoob (k + 1) t (by omega) ht
          have hy : y + ((k : ℤ) + 1) * sy = y + sy + (k : ℤ) * sy := by ring
          push_cast at this
          rw [hy] at this
          exact this

/-- C6 amended: if both endpoints lie beyond the same edge of the raster
(both left of column 0, both at or beyond the last column, both above row 0,
or both at or beyond the last row), every point the Bresenham walk visits is
out of bounds and get_pixels_along_line returns the empty list.  (When the
endpoints are out of bounds on different sides the walk can cross the raster
and return its in-bounds crossing pixels, so the unrestricted claim fails.) -/
theorem C6_same_side_out_of_bounds_empty (img : Img) (x0 y0 x1 y1 : ℤ)
    (hside : (x0 < 0 ∧ x1 < 0) ∨ (img.width ≤ x0 ∧ img.width ≤ x1) ∨
      (y0 < 0 ∧ y1 < 0) ∨ (img.height ≤ y0 ∧ img.height ≤ y1)) :
    get_pixels_along_line img x0 y0 x1 y1 = [] := by
  have hend : inB img x1 y1 = false := by
    simp only [inB, decide_eq_false_iff_not]
    omega
  simp only [get_pixels_along_line]
  have hifend : (if inB img x1 y1 = true then [img.pix x1 y1] else []) = ([] : List Pixel) := by
    rw [hend]
    simp
  rw [hifend, List.append_nil]
  by_cases hxx : x0 < x1 <;> by_cases hyy : y0 < y1
  · -- x0 < x1, y0 < y1 : sx = 1, sy = 1
    have hax : |x1 - x0| = x1 - x0 := abs_of_nonneg (by omega)
    have hay : |y1 - y0| = y1 - y0 := abs_of_nonneg (by omega)
    have haq : (0 : ℚ) ≤ ((x1 - x0 : ℤ) : ℚ) := by exact_mod_cast (by omega : (0:ℤ) ≤ x1 - x0)
    have hbq : (0 : ℚ) ≤ ((y1 - y0 : ℤ) : ℚ) := by exact_mod_cast (by omega : (0:ℤ) ≤ y1 - y0)
    simp only [hxx, hyy, if_true, hax, hay]
    split_ifs with hbr
    · refine lineLoopX_eq_nil img (x1 - x0) (y1 - y0) 1 1 (by omega) hbr
        (x1 - x0).toNat x0 y0 _ (y1 - y0).toNat (by omega) (by linarith) ?_ ?_
      · have htn1 : (((x1 - x0).toNat : ℕ) : ℚ) = ((x1 - x0 : ℤ) : ℚ) := by
          exact_mod_cast Int.toNat_of_nonneg (by omega : (0:ℤ) ≤ x1 - x0)
        have htn2 : (((y1 - y0).toNat : ℕ) : ℚ) = ((y1 - y0 : ℤ) : ℚ) := by
          exact_mod_cast Int.toNat_of_nonneg (by omega : (0:ℤ) ≤ y1 - y0)
        rw [htn1, htn2]
        push_cast at haq hbq ⊢
        nlinarith [haq, hbq]
      · intro k t hk ht
        simp only [inB, decide_eq_false_iff_not]
        omega
    · refine lineLoopY_eq_nil img (x1 - x0) (y1 - y0) 1 1 (by omega) (by omega)
        (y1 - y0).toNat x0 y0 _ (x1 - x0).toNat (by omega) (by linarith) ?_ ?_
      · have htn1 : (((x1 - x0).toNat : ℕ) : ℚ) = ((x1 - x0 : ℤ) : ℚ) := by
          exact_mod_cast Int.toNat_of_nonneg (by omega : (0:ℤ) ≤ x1 - x0)
        have htn2 : (((y1 - y0).toNat : ℕ) : ℚ) = ((y1 - y0 : ℤ) : ℚ) := by
          exact_mod_cast Int.toNat_of_nonneg (by omega : (0:ℤ) ≤ y1 - y0)
        rw [htn1, htn2]
        push_cast at haq hbq ⊢
        nlinarith [haq, hbq]
      · intro k t hk ht
        simp only [inB, decide_eq_false_iff_not]
        omega
  · -- x0 < x1, y1 ≤ y0 : sx = 1, sy = -1
    have hax : |x1 - x0| = x1 - x0 := abs_of_nonneg (by omega)
    have hay : |y1 - y0| = -(y1 - y0) := abs_of_nonpos (by omega)
    have haq : (0 : ℚ) ≤ ((x1 - x0 : ℤ) : ℚ) := by exact_mod_cast (by omega : (0:ℤ) ≤ x1 - x0)
    have hbq : (0 : ℚ) ≤ ((-(y1 - y0) : ℤ) : ℚ) := by
      exact_mod_cast (by omega : (0:ℤ) ≤ -(y1 - y0))
    simp only [hxx, hyy, if_true, if_false, hax, hay]
    split_ifs with hbr
    · refine lineLoopX_eq_nil img (x1 - x0) (-(y1 - y0)) 1 (-1) (by omega) hbr
        (x1 - x0).toNat x0 y0 _ (-(y1 - y0)).toNat (by omega) (by linarith) ?_ ?_
      · have htn1 : (((x1 - x0).toNat : ℕ) : ℚ) = ((x1 - x0 : ℤ) : ℚ) := by
          exact_mod_cast Int.toNat_of_nonneg (by omega : (0:ℤ) ≤ x1 - x0)
        have htn2 : (((-(y1 - y0)).toNat : ℕ) : ℚ) = ((-(y1 - y0) : ℤ) : ℚ) := by
          exact_mod_cast Int.toNat_of_nonneg (by omega : (0:ℤ) ≤ -(y1 - y0))
        rw [htn1, htn2]
        push_cast at haq hbq ⊢
        nlinarith [haq, hbq]
      · intro k t hk ht
        simp only [inB, decide_eq_false_iff_not]
        omega
    · refine lineLoopY_eq_nil img (x1 - x0) (-(y1 - y0)) 1 (-1) (by omega) (by omega)
        (-(y1 - y0)).toNat x0 y0 _ (x1 - x0).toNat (by omega) (by linarith) ?_ ?_
      · have htn1 : (((x1 - x0).toNat : ℕ) : ℚ) = ((x1 - x0 : ℤ) : ℚ) := by
          exact_mod_cast Int.toNat_of_nonneg (by omega : (0:ℤ) ≤ x1 - x0)
        have htn2 : (((-(y1 - y0)).toNat : ℕ) : ℚ) = ((-(y1 - y0) : ℤ) : ℚ) := by
          exact_mod_cast Int.toNat_of_nonneg (by omega : (0:ℤ) ≤ -(y1 - y0))
        rw [htn1, htn2]
        push_cast at haq hbq ⊢
        nlinarith [haq, hbq]
      · intro k t hk ht
        simp only [inB, decide_eq_false_iff_not]
        omega
  · -- x1 ≤ x0, y0 < y1 : sx = -1, sy = 1
    have hax : |x1 - x0| = -(x1 - x0) := abs_of_nonpos (by omega)
    have hay : |y1 - y0| = y1 - y0 := abs_of_nonneg (by omega)
    have haq : (0 : ℚ) ≤ ((-(x1 - x0) : ℤ) : ℚ) := by
      exact_mod_cast (by omega : (0:ℤ) ≤ -(x1 - x0))
    have hbq : (0 : ℚ) ≤ ((y1 - y0 : ℤ) : ℚ) := by exact_mod_cast (by omega : (0:ℤ) ≤ y1 - y0)
    simp only [hxx, hyy, if_true, if_false, hax, hay]
    split_ifs with hbr
    · refine lineLoopX_eq_nil img (-(x1 - x0)) (y1 - y0) (-1) 1 (by omega) hbr
        (-(x1 - x0)).toNat x0 y0 _ (y1 - y0).toNat (by omega) (by linarith) ?_ ?_
      · have htn1 : (((-(x1 - x0)).toNat : ℕ) : ℚ) = ((-(x1 - x0) : ℤ) : ℚ) := by
          exact_mod_cast Int.toNat_of_nonneg (by omega : (0:ℤ) ≤ -(x1 - x0))
        have htn2 : (((y1 - y0).toNat : ℕ) : ℚ) = ((y1 - y0 : ℤ) : ℚ) := by
          exact_mod_cast Int.toNat_of_nonneg (by omega : (0:ℤ) ≤ y1 - y0)
        rw [htn1, htn2]
        push_cast at haq hbq ⊢
        nlinarith [haq, hbq]
      · intro k t hk ht
        simp only [inB, decide_eq_false_iff_not]
        omega
    · refine lineLoopY_eq_nil img (-(x1 - x0)) (y1 - y0) (-1) 1 (by omega) (by omega)
        (y1 - y0).toNat x0 y0 _ (-(x1 - x0)).toNat (by omega) (by linarith) ?_ ?_
      · have htn1 : (((-(x1 - x0)).toNat : ℕ) : ℚ) = ((-(x1 - x0) : ℤ) : ℚ) := by
          exact_mod_cast Int.toNat_of_nonneg (by omega : (0:ℤ) ≤ -(x1 - x0))
        have htn2 : (((y1 - y0).toNat : ℕ) : ℚ) = ((y1 - y0 : ℤ) : ℚ) := by
          exact_mod_cast Int.toNat_of_nonneg (by omega : (0:ℤ) ≤ y1 - y0)
        rw [htn1, htn2]
        push_cast at haq hbq ⊢
        nlinarith [haq, hbq]
      · intro k t hk ht
        simp only [inB, decide_eq_false_iff_not]
        omega
  · -- x1 ≤ x0, y1 ≤ y0 : sx = -1, sy = -1
    have hax : |x1 - x0| = -(x1 - x0) := abs_of_nonpos (by omega)
    have hay : |y1 - y0| = -(y1 - y0) := abs_of_nonpos (by omega)
    have haq : (0 : ℚ) ≤ ((-(x1 - x0) : ℤ) : ℚ) := by
      exact_mod_cast (by omega : (0:ℤ) ≤ -(x1 - x0))
    have hbq : (0 : ℚ) ≤ ((-(y1 - y0) : ℤ) : ℚ) := by
      exact_mod_cast (by omega : (0:ℤ) ≤ -(y1 - y0))
    simp only [hxx, hyy, if_false, hax, hay]
    split_ifs with hbr
    · refine lineLoopX_eq_nil img (-(x1 - x0)) (-(y1 - y0)) (-1) (-1) (by omega) hbr
        (-(x1 - x0)).toNat x0 y0 _ (-(y1 - y0)).toNat (by omega) (by linarith) ?_ ?_
      · have htn1 : (((-(x1 - x0)).toNat : ℕ) : ℚ) = ((-(x1 - x0) : ℤ) : ℚ) := by
          exact_mod_cast Int.toNat_of_nonneg (by omega : (0:ℤ) ≤ -(x1 - x0))
        have htn2 : (((-(y1 - y0)).toNat : ℕ) : ℚ) = ((-(y1 - y0) : ℤ) : ℚ) := by
          exact_mod_cast Int.toNat_of_nonneg (by omega : (0:ℤ) ≤ -(y1 - y0))
        rw [htn1, htn2]
        push_cast at haq hbq ⊢
        nlinarith [haq, hbq]
      · intro k t hk ht
        simp only [inB, decide_eq_false_iff_not]
        omega
    · refine lineLoopY_eq_nil img (-(x1 - x0)) (-(y1 - y0)) (-1) (-1) (by omega) (by omega)
        (-(y1 - y0)).toNat x0 y0 _ (-(x1 - x0)).toNat (by omega) (by linarith) ?_ ?_
      · have htn1 : (((-(x1 - x0)).toNat : ℕ) : ℚ) = ((-(x1 - x0) : ℤ) : ℚ) := by
          exact_mod_cast Int.toNat_of_nonneg (by omega : (0:ℤ) ≤ -(x1 - x0))
        have htn2 : (((-(y1 - y0)).toNat : ℕ) : ℚ) = ((-(y1 - y0) : ℤ) : ℚ) := by
          exact_mod_cast Int.toNat_of_nonneg (by omega : (0:ℤ) ≤ -(y1 - y0))
        rw [htn1, htn2]
        push_cast at haq hbq ⊢
        nlinarith [haq, hbq]
      · intro k t hk ht
        simp only [inB, decide_eq_false_iff_not]
        omega

/-- Witness for the amended C6: both endpoints left of the 3x1 raster give an
empty sample list. -/
theorem C6_same_side_out_of_bounds_empty_witness :
    get_pixels_along_line rowImg (-3) 0 (-1) 2 = [] :=
  C6_same_side_out_of_bounds_empty rowImg (-3) 0 (-1) 2
    (Or.inl ⟨by decide, by decide⟩)
